import Mathlib

/-!
Verification of the rm-qmd-verify-cli result-processing core.

This file shallowly embeds the pure parts of the Go sources:
  internal/api/client.go     — response types, poll-response decoding,
                               the polling loops (time measured in
                               milliseconds of accumulated sleep),
  internal/commands/check.go — version filters, response filtering,
                               batch root-file identification,
  internal/display/table.go  — version comparison and sorting,
and (for the refinement claim) the earlier single-file check command,
whose old filter used plain string prefix matching.

Go maps are embedded as association lists; map iteration order is
irrelevant because every property proved is order-independent or the
embedding's deterministic order is noted at the theorem. JSON decoding
(encoding/json) is external library code, so a poll body is embedded as
the record of the possible decode outcomes of the same bytes.
-/

/-- Embeds `HashError` from internal/api/client.go (uint64 id as Nat). -/
structure HashError where
  HashID : Nat
  Error : String
deriving DecidableEq, Repr

/-- Embeds `ValidationResult` from internal/api/client.go. -/
structure ValidationResult where
  Status : String
  HashErrors : List HashError
deriving DecidableEq, Repr

/-- Embeds `ComparisonResult` from internal/api/client.go. The Go field
`DependencyResults map[string]*ValidationResult` (nil-able map) is an
optional association list. -/
structure ComparisonResult where
  Hashtable : String
  OSVersion : String
  Device : String
  Compatible : Bool
  ErrorDetail : String
  ValidationMode : String
  FilesProcessed : Int
  FilesModified : Int
  FilesWithErrors : Int
  TreeValidationUsed : Bool
  DependencyResults : Option (List (String × ValidationResult))
deriving DecidableEq, Repr

/-- Embeds `ComparisonResponse` from internal/api/client.go. -/
structure ComparisonResponse where
  Compatible : List ComparisonResult
  Incompatible : List ComparisonResult
  TotalChecked : Int
  Mode : String
deriving DecidableEq, Repr

/-- Embeds `BatchComparisonResponse = map[string]ComparisonResponse`. -/
abbrev BatchComparisonResponse := List (String × ComparisonResponse)

/-- Embeds `JobResultsResponse` from internal/api/client.go. -/
structure JobResultsResponse where
  Status : String
  Results : Option ComparisonResponse
  Error : String
  Message : String
deriving DecidableEq, Repr

/-- Embeds `ErrorResponse` from internal/api/client.go. -/
structure ErrorResponse where
  Error : String
deriving DecidableEq, Repr

/-- Auxiliary for `splitOnDot`: `acc` holds the reversed current segment. -/
def splitDotAux : List Char → List Char → List (List Char)
  | [], acc => [acc.reverse]
  | '.' :: rest, acc => acc.reverse :: splitDotAux rest []
  | c :: rest, acc => splitDotAux rest (c :: acc)

/-- Embeds Go `strings.Split(s, ".")`: every `.` separates, empty
segments are kept, and the empty string yields `[""]`. (Defined
structurally on the character list so concrete instances evaluate.) -/
def splitOnDot (s : String) : List String :=
  (splitDotAux s.data []).map fun cs => String.mk cs

/-- Embeds Go `strings.HasPrefix(s, p)` on character lists. -/
def listIsPre : List Char → List Char → Bool
  | [], _ => true
  | _ :: _, [] => false
  | c :: cs, d :: ds => c == d && listIsPre cs ds

/-- Embeds Go `strings.HasPrefix(s, p)`. -/
def hasPrefixGo (s p : String) : Bool := listIsPre p.data s.data

/-- Value of a list of decimal digit characters. -/
def digitsVal (cs : List Char) : Nat :=
  cs.foldl (fun n c => n * 10 + (c.toNat - 48)) 0

/-- Embeds Go `strconv.Atoi`: an optional sign followed by one or more
decimal digits and nothing else, with the int64 range check (Atoi is
ParseInt(s, 10, 0) on a 64-bit platform); anything else is an error. -/
def atoi (s : String) : Option Int :=
  let cs := s.data
  let signDigits : Int × List Char :=
    match cs with
    | '-' :: rest => (-1, rest)
    | '+' :: rest => (1, rest)
    | _ => (1, cs)
  let digits := signDigits.2
  if digits = [] then none
  else if digits.all Char.isDigit then
    let n : Int := signDigits.1 * (digitsVal digits : Int)
    if -(2 ^ 63) ≤ n ∧ n ≤ 2 ^ 63 - 1 then some n else none
  else none

/-- One positional segment comparison of the loop body of
`matchesVersionPrefix` (internal/commands/check.go lines 64-78): when
both segments parse with Atoi they compare as integers, otherwise they
compare as exact strings. -/
def segMatch (versionPart pfxPart : String) : Bool :=
  match atoi pfxPart, atoi versionPart with
  | some pfxNum, some versionNum => versionNum == pfxNum
  | _, _ => versionPart == pfxPart

/-- Embeds `matchesVersionPrefix` from internal/commands/check.go: split
both strings on ".", fail if the filter has more segments than the
version, else require every positional segment pair to match. -/
def versionMatches (version p : String) : Bool :=
  let versionParts := splitOnDot version
  let pfxParts := splitOnDot p
  if pfxParts.length > versionParts.length then false
  else (pfxParts.zip versionParts).all fun q => segMatch q.2 q.1

/-- Embeds `matchesFilter` from internal/commands/check.go. -/
def matchesFilter (result : ComparisonResult) (devices versions : List String) : Bool :=
  let deviceMatch := devices.isEmpty || devices.any fun d => result.Device == d
  let versionMatch := versions.isEmpty || versions.any fun v => versionMatches result.OSVersion v
  deviceMatch && versionMatch

/-- Embeds `filterResponse` from internal/commands/check.go: with both
filter sets empty the input is returned unchanged; otherwise both lists
are filtered with `matchesFilter` and `TotalChecked` is recomputed (the
`Mode` field of the fresh struct is left at its zero value). -/
def filterResponse (response : ComparisonResponse) (devices versions : List String) :
    ComparisonResponse :=
  if devices = [] ∧ versions = [] then response
  else
    let keptCompatible := response.Compatible.filter fun r => matchesFilter r devices versions
    let keptIncompatible := response.Incompatible.filter fun r => matchesFilter r devices versions
    { Compatible := keptCompatible
      Incompatible := keptIncompatible
      TotalChecked := (keptCompatible.length : Int) + (keptIncompatible.length : Int)
      Mode := "" }

namespace Old

/-- Embeds the earlier `matchesFilter` from the pre-batch check command
(src/unnamed/part_001 lines 57-75): the version predicate is plain
`strings.HasPrefix` on the OS version string. -/
def matchesFilter (result : ComparisonResult) (devices versions : List String) : Bool :=
  let deviceMatch := devices.isEmpty || devices.any fun d => result.Device == d
  let versionMatch := versions.isEmpty || versions.any fun v => hasPrefixGo result.OSVersion v
  deviceMatch && versionMatch

/-- Embeds the earlier `filterResponse` (src/unnamed/part_001 lines
77-102), identical to the current one except for the version predicate. -/
def filterResponse (response : ComparisonResponse) (devices versions : List String) :
    ComparisonResponse :=
  if devices = [] ∧ versions = [] then response
  else
    let keptCompatible := response.Compatible.filter fun r => Old.matchesFilter r devices versions
    let keptIncompatible := response.Incompatible.filter fun r => Old.matchesFilter r devices versions
    { Compatible := keptCompatible
      Incompatible := keptIncompatible
      TotalChecked := (keptCompatible.length : Int) + (keptIncompatible.length : Int)
      Mode := "" }

end Old

example : versionMatches "3.22.4.2" "3.22" = true := by decide
example : versionMatches "3.22.4.2" "3.22.4.2.9" = false := by decide
example : versionMatches "3.220" "3.22" = false := by decide
example : Old.matchesFilter ⟨"h", "3.220", "rm2", true, "", "", 0, 0, 0, false, none⟩ [] ["3.22"] = true := by decide

/-- Dependency-map keys of one result (empty when the Go map is nil). -/
def depKeys (r : ComparisonResult) : List String :=
  match r.DependencyResults with
  | none => []
  | some deps => deps.map Prod.fst

/-- Dependency keys of one result other than the owning file's own name
(the inner loop of `identifyRootFiles`, internal/commands/check.go). -/
def resultDeps (filename : String) (r : ComparisonResult) : List String :=
  (depKeys r).filter fun depFile => depFile ≠ filename

/-- Foreign dependency keys collected from a list of results. -/
def resultsDeps (filename : String) : List ComparisonResult → List String
  | [] => []
  | r :: rest => resultDeps filename r ++ resultsDeps filename rest

/-- All foreign dependency keys of a batch: for each file, the keys found
in its compatible and incompatible result lists, excluding its own name. -/
def dependencyFilesOf : BatchComparisonResponse → List String
  | [] => []
  | (filename, response) :: rest =>
      resultsDeps filename response.Compatible ++ resultsDeps filename response.Incompatible
        ++ dependencyFilesOf rest

/-- Embeds Go `delete(m, key)` on a `map[string]bool` association list. -/
def mapDelete (key : String) (m : List (String × Bool)) : List (String × Bool) :=
  m.filter fun q => q.1 ≠ key

/-- Embeds `identifyRootFiles` from internal/commands/check.go: start
from every batch filename mapped to `true`, collect every foreign
dependency key, and delete all collected keys from the root map. -/
def identifyRootFiles (batch : BatchComparisonResponse) : List (String × Bool) :=
  let rootFiles := batch.map fun q => (q.1, true)
  let dependencyFiles := dependencyFilesOf batch
  dependencyFiles.foldl (fun m depFile => mapDelete depFile m) rootFiles

/-- The whitespace set of Go's fmt scanner: the `space` rune-range table
of fmt/scan.go (0x09-0x0d, space, NEL, NBSP, and the Unicode space
runes). -/
def isGoSpace (c : Char) : Bool :=
  decide ((0x0009 ≤ c.toNat ∧ c.toNat ≤ 0x000d) ∨ c.toNat = 0x0020 ∨ c.toNat = 0x0085 ∨
    c.toNat = 0x00a0 ∨ c.toNat = 0x1680 ∨ (0x2000 ≤ c.toNat ∧ c.toNat ≤ 0x200a) ∨
    c.toNat = 0x2028 ∨ c.toNat = 0x2029 ∨ c.toNat = 0x202f ∨ c.toNat = 0x205f ∨
    c.toNat = 0x3000)

/-- Embeds `SkipSpace` of fmt/scan.go as `Sscanf` runs it (with
`nlIsSpace = false`): space runes are consumed, but a newline — or a
carriage return directly followed by one — is an "unexpected newline"
scan error, returned as `none`; otherwise the remaining input is
returned at its first non-space rune. -/
def skipGoSpace : List Char → Option (List Char)
  | [] => some []
  | c :: rest =>
    if c = '\n' then none
    else if c = '\r' then
      match rest with
      | '\n' :: _ => none
      | _ => skipGoSpace rest
    else if isGoSpace c then skipGoSpace rest
    else some (c :: rest)

/-- Embeds the effect on a fresh zero variable of Go
`fmt.Sscanf(s, "%d", &n)` (internal/display/table.go `compareVersions`):
the scanner first skips space runes — erroring on a newline, which
leaves the variable 0 — then reads an optional sign and the maximal run
of leading decimal digits; no digit at all, or an int64 range overflow
in ParseInt, is a scan error that also leaves 0. Characters after the
digits are ignored. -/
def scanLeadingInt (s : String) : Int :=
  match skipGoSpace s.data with
  | none => 0
  | some cs =>
    let signRest : Int × List Char :=
      match cs with
      | '-' :: rest => (-1, rest)
      | '+' :: rest => (1, rest)
      | _ => (1, cs)
    let digits := signRest.2.takeWhile Char.isDigit
    if digits = [] then 0
    else
      let n : Int := signRest.1 * (digitsVal digits : Int)
      if -(2 ^ 63) ≤ n ∧ n ≤ 2 ^ 63 - 1 then n else 0

/-- The wrap-around of an integer into two's-complement int64 range: the
behaviour of Go `int` arithmetic on a 64-bit platform. -/
def wrapInt64 (n : Int) : Int := (n + 2 ^ 63) % 2 ^ 64 - 2 ^ 63

/-- The loop of `compareVersions` (internal/display/table.go lines
262-273), counting down the remaining indices: segment `i` of each side
is scanned (missing segments scan as 0), the first unequal pair decides
with the difference `n1 - n2` computed in Go `int` (int64, wrapping)
arithmetic, and exhausting the indices yields 0. -/
def compareSegs (p1 p2 : List String) (i : Nat) : Nat → Int
  | 0 => 0
  | fuel + 1 =>
    let n1 := scanLeadingInt (p1.getD i "")
    let n2 := scanLeadingInt (p2.getD i "")
    if n1 ≠ n2 then wrapInt64 (n1 - n2) else compareSegs p1 p2 (i + 1) fuel

/-- Wrap-free variant of `compareSegs`, a proof intermediary only: it
agrees with `compareSegs` whenever no subtraction leaves int64 range
(`compareSegs_eq_noWrap`). -/
def compareSegsNoWrap (p1 p2 : List String) (i : Nat) : Nat → Int
  | 0 => 0
  | fuel + 1 =>
    let n1 := scanLeadingInt (p1.getD i "")
    let n2 := scanLeadingInt (p2.getD i "")
    if n1 ≠ n2 then n1 - n2 else compareSegsNoWrap p1 p2 (i + 1) fuel

/-- Embeds `compareVersions` from internal/display/table.go. -/
def compareVersions (v1 v2 : String) : Int :=
  let p1 := splitOnDot v1
  let p2 := splitOnDot v2
  compareSegs p1 p2 0 (max p1.length p2.length)

/-- The order underlying `getSortedVersions`: `a` may come before `b`
when `compareVersions a b ≥ 0`, i.e. descending by version. -/
def versionGE (a b : String) : Prop := 0 ≤ compareVersions a b

instance : DecidableRel versionGE := fun a b => Int.decLe 0 (compareVersions a b)

/-- Every scanned segment of the version stays well inside int64 — under
this bound no segment subtraction in `compareVersions` can wrap, which
is also what makes the Go comparator a strict weak order on such
versions (with wrapping pairs, `sort.Slice`'s contract is violated and
its output is unspecified). -/
def versionBounded (v : String) : Prop :=
  ∀ i, i < (splitOnDot v).length →
    (scanLeadingInt ((splitOnDot v).getD i "")).natAbs < 2 ^ 62

instance (v : String) : Decidable (versionBounded v) :=
  Nat.decidableBallLT _ _

/-- Embeds `getSortedVersions` from internal/display/table.go: the
matrix's version keys (taken here as a list, since Go map iteration
order is arbitrary) sorted by `sort.Slice` with
`less(i, j) = compareVersions(v[i], v[j]) > 0`. A sorted output of that
call is one that is descending under `compareVersions`; when `less` is
a strict weak ordering (in particular whenever no segment subtraction
wraps), a stable insertion sort by `versionGE` produces such an output,
and otherwise Go's own output is unspecified. -/
def getSortedVersions (versions : List String) : List String :=
  versions.insertionSort versionGE

example : scanLeadingInt "2a" = 2 := by decide
example : scanLeadingInt "\n2" = 0 := by decide
example : scanLeadingInt (String.mk ['\u000b', '2']) = 2 := by decide
example : compareVersions "3.22.4.2" "3.21.0.79" > 0 := by decide

/-- An HTTP poll answer for a single-file job, as seen after transport:
the status code plus the possible decodings of the same body bytes.
`ErrBody`, `DirectBody` and `WrappedBody` are the outcomes of
`json.Unmarshal` of the body into `ErrorResponse`, `ComparisonResponse`
and `JobResultsResponse` respectively (`none` = decode error). Network
transport failures are outside the embedding. -/
structure PollHTTPResponse where
  StatusCode : Nat
  ErrBody : Option ErrorResponse
  DirectBody : Option ComparisonResponse
  WrappedBody : Option JobResultsResponse

/-- The evidence-of-real-data test of `getJobResults`
(internal/api/client.go line 256): a positive total-checked count or a
non-empty compatible or incompatible list. -/
def hasRealData (r : ComparisonResponse) : Bool :=
  decide (0 < r.TotalChecked) || decide (0 < r.Compatible.length) ||
    decide (0 < r.Incompatible.length)

/-- The wrapped-envelope half of `getJobResults` (internal/api/client.go
lines 261-278): a failed envelope decode is a protocol error; an
explicit error status yields the error message chain
(error, else message, else a fixed fallback); anything else passes the
nested results and status through. -/
def decodeWrapped (wrapped : Option JobResultsResponse) :
    Except String (Option ComparisonResponse × String) :=
  match wrapped with
  | none => Except.error "failed to decode results"
  | some jobResult =>
    if jobResult.Status = "error" then
      let errorMsg :=
        if jobResult.Error ≠ "" then jobResult.Error
        else if jobResult.Message ≠ "" then jobResult.Message
        else "unknown error"
      Except.error errorMsg
    else Except.ok (jobResult.Results, jobResult.Status)

/-- Embeds `getJobResults` from internal/api/client.go: HTTP 202 means
still processing; other non-200 statuses are server/transport errors;
on 200 the body is first read as a bare `ComparisonResponse` and
returned as success when that decode worked and shows real data, and
only otherwise is the wrapped envelope attempted. The Go function
returns `(results, status, err)` with the callers checking `err` first,
which this `Except` faithfully collapses. -/
def getJobResults (resp : PollHTTPResponse) :
    Except String (Option ComparisonResponse × String) :=
  if resp.StatusCode = 202 then Except.ok (none, "running")
  else if resp.StatusCode ≠ 200 then
    match resp.ErrBody with
    | none => Except.error ("server returned status " ++ toString resp.StatusCode)
    | some errResp => Except.error ("server error: " ++ errResp.Error)
  else
    match resp.DirectBody with
    | some directResult =>
      if hasRealData directResult then Except.ok (some directResult, "success")
      else decodeWrapped resp.WrappedBody
    | none => decodeWrapped resp.WrappedBody

/-- An HTTP poll answer for a batch job: the status code plus the
possible decodings of the body into `ErrorResponse` and
`BatchComparisonResponse`. -/
structure BatchPollHTTPResponse where
  StatusCode : Nat
  ErrBody : Option ErrorResponse
  BatchBody : Option BatchComparisonResponse

/-- Embeds `getBatchJobResults` from internal/api/client.go: HTTP 202 is
still processing, other non-200 statuses are errors, and on 200 the
body must decode as a `BatchComparisonResponse` (a single shape). -/
def getBatchJobResults (resp : BatchPollHTTPResponse) :
    Except String (Option BatchComparisonResponse × String) :=
  if resp.StatusCode = 202 then Except.ok (none, "running")
  else if resp.StatusCode ≠ 200 then
    match resp.ErrBody with
    | none => Except.error ("server returned status " ++ toString resp.StatusCode)
    | some errResp => Except.error ("server error: " ++ errResp.Error)
  else
    match resp.BatchBody with
    | none => Except.error "failed to decode batch results"
    | some batchResult => Except.ok (some batchResult, "success")

/-- `PollInterval` of internal/api/client.go, in milliseconds. -/
def pollIntervalMs : Nat := 500

/-- `PollIntervalSlow` of internal/api/client.go, in milliseconds. -/
def pollIntervalSlowMs : Nat := 1000

/-- `PollSlowAfter` of internal/api/client.go, in milliseconds. -/
def pollSlowAfterMs : Nat := 10000

/-- `MaxPollingDuration` of internal/api/client.go, in milliseconds. -/
def maxPollingDurationMs : Nat := 60000

/-- The timeout failure text: Go renders
`fmt.Errorf("job polling timed out after %v", MaxPollingDuration)` and
`(60 * time.Second).String() = "1m0s"`, so the message carries the
60-second deadline. -/
def timeoutMessage : String := "job polling timed out after 1m0s"

/-- Embeds the loop of `pollJobResults` (internal/api/client.go lines
183-219). Time is the milliseconds of sleep accumulated so far (network
time is idealized to zero); `polls k` is the server's answer to the
k-th poll. Each iteration first checks the 60 s deadline, then picks
the current interval (slow once past 10 s), polls, and dispatches on
the decoded status exactly as the Go switch does. -/
def pollJobResults (polls : Nat → PollHTTPResponse) (n elapsed : Nat) :
    Except String ComparisonResponse :=
  if elapsed > maxPollingDurationMs then Except.error timeoutMessage
  else
    let pollInterval := if elapsed > pollSlowAfterMs then pollIntervalSlowMs else pollIntervalMs
    match getJobResults (polls n) with
    | Except.error e => Except.error e
    | Except.ok (results, status) =>
      if status = "success" then
        match results with
        | none => Except.error "job succeeded but no results returned"
        | some r => Except.ok r
      else if status = "error" then Except.error "job failed on server"
      else if status = "running" ∨ status = "pending" then
        pollJobResults polls (n + 1) (elapsed + pollInterval)
      else Except.error ("unknown job status: " ++ status)
termination_by maxPollingDurationMs + 1 - elapsed
decreasing_by
  simp only [maxPollingDurationMs, pollIntervalSlowMs, pollIntervalMs, pollSlowAfterMs,
    pollInterval] at *
  split <;> omega

/-- Embeds the loop of `pollBatchJobResults` (internal/api/client.go
lines 412-444), identical to the single-file loop but decoding batch
bodies. -/
def pollBatchJobResults (polls : Nat → BatchPollHTTPResponse) (n elapsed : Nat) :
    Except String BatchComparisonResponse :=
  if elapsed > maxPollingDurationMs then Except.error timeoutMessage
  else
    let pollInterval := if elapsed > pollSlowAfterMs then pollIntervalSlowMs else pollIntervalMs
    match getBatchJobResults (polls n) with
    | Except.error e => Except.error e
    | Except.ok (results, status) =>
      if status = "success" then
        match results with
        | none => Except.error "job succeeded but no results returned"
        | some r => Except.ok r
      else if status = "error" then Except.error "job failed on server"
      else if status = "running" ∨ status = "pending" then
        pollBatchJobResults polls (n + 1) (elapsed + pollInterval)
      else Except.error ("unknown job status: " ++ status)
termination_by maxPollingDurationMs + 1 - elapsed
decreasing_by
  simp only [maxPollingDurationMs, pollIntervalSlowMs, pollIntervalMs, pollSlowAfterMs,
    pollInterval] at *
  split <;> omega

/-- A poll answer that a running job reports as still processing:
decoding succeeded and the status is `running` or `pending` (HTTP 202
decodes to `running`). -/
def stillProcessing (resp : PollHTTPResponse) : Bool :=
  match getJobResults resp with
  | Except.ok (_, status) => status == "running" || status == "pending"
  | Except.error _ => false

/-- Batch analogue of `stillProcessing`. -/
def stillProcessingBatch (resp : BatchPollHTTPResponse) : Bool :=
  match getBatchJobResults resp with
  | Except.ok (_, status) => status == "running" || status == "pending"
  | Except.error _ => false

theorem zip_all_segMatch (pp : List String) :
    ∀ vp : List String, pp.length ≤ vp.length →
      ((((pp.zip vp).all fun q => segMatch q.2 q.1) = true) ↔
        ∀ i, i < pp.length → segMatch (vp.getD i "") (pp.getD i "") = true) := by
  induction pp with
  | nil => intro vp _; simp
  | cons p ps ih =>
    intro vp hle
    cases vp with
    | nil => simp at hle
    | cons v vs =>
      simp only [List.length_cons] at hle
      simp only [List.zip_cons_cons, List.all_cons, Bool.and_eq_true, List.length_cons]
      rw [ih vs (by omega)]
      constructor
      · rintro ⟨h0, h⟩ i hi
        cases i with
        | zero => simpa using h0
        | succ j => simpa using h j (by omega)
      · intro h
        refine ⟨by simpa using h 0 (by omega), fun j hj => ?_⟩
        simpa using h (j + 1) (by omega)

/-- C1: the version predicate holds iff the filter, split on dots, has
no more segments than the version and every segment of the filter,
compared positionally against the corresponding version segment,
matches — numerically when both sides parse with Atoi, else as exact
strings; in particular filter "3.22" matches version "3.22.4.2" and
filter "3.22.4.2.9" does not match version "3.22.4.2". -/
theorem versionMatches_spec :
    (∀ version p : String,
      versionMatches version p = true ↔
        ((splitOnDot p).length ≤ (splitOnDot version).length ∧
          ∀ i, i < (splitOnDot p).length →
            segMatch ((splitOnDot version).getD i "") ((splitOnDot p).getD i "") = true)) ∧
    versionMatches "3.22.4.2" "3.22" = true ∧
    versionMatches "3.22.4.2" "3.22.4.2.9" = false := by
  refine ⟨?_, by decide, by decide⟩
  intro version p
  simp only [versionMatches]
  by_cases hl : (splitOnDot p).length > (splitOnDot version).length
  · rw [if_pos hl]
    simp only [Bool.false_eq_true, false_iff, not_and]
    intro hle
    omega
  · rw [if_neg hl]
    rw [zip_all_segMatch _ _ (by omega)]
    constructor
    · intro h; exact ⟨by omega, h⟩
    · intro h; exact h.2

/-- C2 fails as stated for empty filter sets: with both sets empty,
`filterResponse` returns the input unchanged, so an input whose
`TotalChecked` is not the sum of its list lengths survives. -/
theorem filterResponse_total_cex :
    ¬((filterResponse ⟨[], [], 1, ""⟩ [] []).TotalChecked =
      ((filterResponse ⟨[], [], 1, ""⟩ [] []).Compatible.length : Int) +
        ((filterResponse ⟨[], [], 1, ""⟩ [] []).Incompatible.length : Int)) := by
  decide

/-- C2 (amended): whenever at least one filter set is non-empty, the
filtered response satisfies `TotalChecked = |Compatible| +
|Incompatible|`, recomputed from the kept lists; with both filter sets
empty, `filterResponse` returns its input unchanged (count copied from
the input). -/
theorem filterResponse_total_inv :
    (∀ (r : ComparisonResponse) (devices versions : List String),
      devices ≠ [] ∨ versions ≠ [] →
      (filterResponse r devices versions).TotalChecked =
        ((filterResponse r devices versions).Compatible.length : Int) +
          ((filterResponse r devices versions).Incompatible.length : Int)) ∧
    ∀ r : ComparisonResponse, filterResponse r [] [] = r := by
  constructor
  · intro r devices versions h
    have hne : ¬(devices = [] ∧ versions = []) := by tauto
    simp only [filterResponse, if_neg hne]
  · intro r
    simp [filterResponse]

/-- Witness for the amended C2 theorem at a concrete response and a
non-empty device filter set. -/
theorem filterResponse_total_inv_witness :
    ((["rm2"] : List String) ≠ [] ∨ ([] : List String) ≠ []) ∧
    (filterResponse ⟨[], [], 5, "m"⟩ ["rm2"] []).TotalChecked =
      ((filterResponse ⟨[], [], 5, "m"⟩ ["rm2"] []).Compatible.length : Int) +
        ((filterResponse ⟨[], [], 5, "m"⟩ ["rm2"] []).Incompatible.length : Int) :=
  ⟨Or.inl (by decide), filterResponse_total_inv.1 _ _ _ (Or.inl (by decide))⟩

/-- C8: filtering is idempotent — filtering an already-filtered response
with the same device and version sets changes nothing. -/
theorem filterResponse_idempotent (r : ComparisonResponse) (devices versions : List String) :
    filterResponse (filterResponse r devices versions) devices versions =
      filterResponse r devices versions := by
  by_cases h : devices = [] ∧ versions = []
  · simp only [filterResponse, if_pos h]
  · have hfix : ∀ l : List ComparisonResult,
        ((l.filter fun x => matchesFilter x devices versions).filter
          fun x => matchesFilter x devices versions) =
        l.filter fun x => matchesFilter x devices versions := by
      intro l
      rw [List.filter_eq_self]
      intro a ha
      exact (List.mem_filter.mp ha).2
    simp only [filterResponse, if_neg h, hfix]

/-- C9 fails as stated: OS version "3.220" against version filter
"3.22" is kept by the old plain-string-prefix filter but dropped by the
current segment-wise one, so the two filtered responses differ. -/
theorem old_new_filterResponse_cex :
    Old.filterResponse
        ⟨[⟨"h", "3.220", "rm2", true, "", "", 0, 0, 0, false, none⟩], [], 1, ""⟩ [] ["3.22"] ≠
      filterResponse
        ⟨[⟨"h", "3.220", "rm2", true, "", "", 0, 0, 0, false, none⟩], [], 1, ""⟩ [] ["3.22"] := by
  decide

/-- C9 (amended): the old and current implementations produce equal
filtered responses for every response and device filter set whenever
the version filter set is empty; with a non-empty version filter they
can differ, because the old code matched plain string prefixes. -/
theorem old_new_filterResponse_agree (r : ComparisonResponse) (devices : List String) :
    Old.filterResponse r devices [] = filterResponse r devices [] := by
  have hm : ∀ x : ComparisonResult,
      Old.matchesFilter x devices [] = matchesFilter x devices [] := by
    intro x
    simp [Old.matchesFilter, matchesFilter]
  simp only [Old.filterResponse, filterResponse, hm]

theorem mem_foldl_mapDelete (ds : List String) :
    ∀ (m : List (String × Bool)) (q : String × Bool),
      (q ∈ ds.foldl (fun acc d => mapDelete d acc) m) ↔ (q ∈ m ∧ q.1 ∉ ds) := by
  induction ds with
  | nil => simp
  | cons d rest ih =>
    intro m q
    simp only [List.foldl_cons]
    rw [ih]
    simp only [mapDelete, List.mem_filter, List.mem_cons, decide_eq_true_eq]
    tauto

theorem mem_resultsDeps (filename owner : String) (rs : List ComparisonResult) :
    filename ∈ resultsDeps owner rs ↔
      ∃ r ∈ rs, filename ∈ depKeys r ∧ filename ≠ owner := by
  induction rs with
  | nil => simp [resultsDeps]
  | cons r rest ih =>
    simp only [resultsDeps, List.mem_append, ih, resultDeps, List.mem_filter,
      decide_eq_true_eq, List.mem_cons]
    constructor
    · rintro (⟨hk, hne⟩ | ⟨r', hr', hk, hne⟩)
      · exact ⟨r, Or.inl rfl, hk, hne⟩
      · exact ⟨r', Or.inr hr', hk, hne⟩
    · rintro ⟨r', rfl | hr', hk, hne⟩
      · exact Or.inl ⟨hk, hne⟩
      · exact Or.inr ⟨r', hr', hk, hne⟩

theorem mem_dependencyFilesOf (filename : String) (batch : BatchComparisonResponse) :
    filename ∈ dependencyFilesOf batch ↔
      ∃ q ∈ batch, ∃ r ∈ q.2.Compatible ++ q.2.Incompatible,
        filename ∈ depKeys r ∧ filename ≠ q.1 := by
  induction batch with
  | nil => simp [dependencyFilesOf]
  | cons q rest ih =>
    obtain ⟨owner, resp⟩ := q
    simp only [dependencyFilesOf, List.mem_append, ih, mem_resultsDeps, List.mem_cons]
    constructor
    · rintro ((⟨r, hr, hk, hne⟩ | ⟨r, hr, hk, hne⟩) | ⟨q', hq', r, hr, hk, hne⟩)
      · exact ⟨(owner, resp), Or.inl rfl, r, Or.inl hr, hk, hne⟩
      · exact ⟨(owner, resp), Or.inl rfl, r, Or.inr hr, hk, hne⟩
      · exact ⟨q', Or.inr hq', r, hr, hk, hne⟩
    · rintro ⟨q', hq' | hq', r, hr, hk, hne⟩
      · subst hq'
        rcases hr with h | h
        · exact Or.inl (Or.inl ⟨r, h, hk, hne⟩)
        · exact Or.inl (Or.inr ⟨r, h, hk, hne⟩)
      · exact Or.inr ⟨q', hq', r, hr, hk, hne⟩

/-- A concrete response whose single compatible result lists `dep` as a
dependency. -/
def depResponse (dep : String) : ComparisonResponse :=
  ⟨[⟨"h", "3.22.4.2", "rm2", true, "", "", 0, 0, 0, false, some [(dep, ⟨"ok", []⟩)]⟩],
    [], 1, ""⟩

/-- C3: a filename is a root iff it is a batch filename that does not
occur as a dependency key (other than the owning file's own name) in
any result of any file's compatible or incompatible list; a file that
lists itself is not self-excluded (the inner filter only drops the
owner's own name), and the mutual cycle A↔B yields the empty root set. -/
theorem identifyRootFiles_spec :
    (∀ (batch : BatchComparisonResponse) (filename : String),
      ((filename, true) ∈ identifyRootFiles batch ↔
        (filename ∈ batch.map Prod.fst ∧
          ¬∃ q ∈ batch, ∃ r ∈ q.2.Compatible ++ q.2.Incompatible,
            filename ∈ depKeys r ∧ filename ≠ q.1))) ∧
    identifyRootFiles [("A", depResponse "B"), ("B", depResponse "A")] = [] := by
  refine ⟨?_, by decide⟩
  intro batch filename
  simp only [identifyRootFiles, mem_foldl_mapDelete, mem_dependencyFilesOf, List.mem_map,
    Prod.mk.injEq, and_true]

/-- C10: every entry of the returned root map pairs a filename of the
batch with the value `true`; deleting a name that is not a batch
filename from the initial root map is a no-op. -/
theorem identifyRootFiles_entries :
    (∀ (batch : BatchComparisonResponse) (q : String × Bool),
      q ∈ identifyRootFiles batch → q.2 = true ∧ q.1 ∈ batch.map Prod.fst) ∧
    ∀ (batch : BatchComparisonResponse) (d : String),
      d ∉ batch.map Prod.fst →
      mapDelete d (batch.map fun q => (q.1, true)) = batch.map fun q => (q.1, true) := by
  constructor
  · intro batch q hq
    simp only [identifyRootFiles, mem_foldl_mapDelete] at hq
    obtain ⟨hmem, -⟩ := hq
    simp only [List.mem_map] at hmem
    obtain ⟨p, hp, hq'⟩ := hmem
    refine ⟨?_, ?_⟩
    · rw [← hq']
    · rw [← hq']
      exact List.mem_map.mpr ⟨p, hp, rfl⟩
  · intro batch d hd
    rw [mapDelete, List.filter_eq_self]
    intro a ha
    simp only [List.mem_map] at ha hd
    obtain ⟨p, hp, rfl⟩ := ha
    simp only [decide_eq_true_eq]
    intro hEq
    exact hd ⟨p, hp, hEq⟩

/-- A concrete response with no results at all. -/
def emptyResponse : ComparisonResponse := ⟨[], [], 0, ""⟩

/-- Witness for the C10 theorem at a one-file batch and a foreign name. -/
theorem identifyRootFiles_entries_witness :
    (("A", true) ∈ identifyRootFiles [("A", emptyResponse)] ∧
      (("A", true) : String × Bool).2 = true ∧
      (("A", true) : String × Bool).1 ∈ [("A", emptyResponse)].map Prod.fst) ∧
    ("Z" ∉ [("A", emptyResponse)].map Prod.fst ∧
      mapDelete "Z" ([("A", emptyResponse)].map fun q => (q.1, true)) =
        [("A", emptyResponse)].map fun q => (q.1, true)) :=
  ⟨⟨by decide, identifyRootFiles_entries.1 _ _ (by decide)⟩,
    ⟨by decide, identifyRootFiles_entries.2 _ _ (by decide)⟩⟩

/-- C4: on an HTTP 200 poll body, the decoder returns the bare
`ComparisonResponse` with status success exactly when that decode
succeeded and shows real data (non-empty compatible or incompatible
list, or positive total-checked); in every other 200 case the result is
the wrapped-envelope interpretation; and when neither shape decodes,
the result is the fixed decode-failure protocol error — no third shape
is attempted. -/
theorem getJobResults_spec :
    (∀ (resp : PollHTTPResponse) (d : ComparisonResponse),
      resp.StatusCode = 200 → resp.DirectBody = some d → hasRealData d = true →
      getJobResults resp = Except.ok (some d, "success")) ∧
    (∀ resp : PollHTTPResponse,
      resp.StatusCode = 200 →
      (resp.DirectBody = none ∨ ∃ d, resp.DirectBody = some d ∧ hasRealData d = false) →
      getJobResults resp = decodeWrapped resp.WrappedBody) ∧
    (∀ resp : PollHTTPResponse,
      resp.StatusCode = 200 → resp.DirectBody = none → resp.WrappedBody = none →
      getJobResults resp = Except.error "failed to decode results") := by
  refine ⟨?_, ?_, ?_⟩
  · intro resp d h200 hd hreal
    simp [getJobResults, h200, hd, hreal]
  · intro resp h200 hcase
    rcases hcase with hnone | ⟨d, hd, hreal⟩
    · simp [getJobResults, h200, hnone]
    · simp [getJobResults, h200, hd, hreal]
  · intro resp h200 hd hw
    simp [getJobResults, h200, hd, hw, decodeWrapped]

/-- Witness for the C4 theorem at concrete 200-status poll bodies. -/
theorem getJobResults_spec_witness :
    getJobResults ⟨200, none, some ⟨[], [], 3, ""⟩, none⟩ =
        Except.ok (some ⟨[], [], 3, ""⟩, "success") ∧
    getJobResults ⟨200, none, none, some ⟨"pending", none, "", ""⟩⟩ =
        decodeWrapped (some ⟨"pending", none, "", ""⟩) ∧
    getJobResults ⟨200, none, none, none⟩ = Except.error "failed to decode results" :=
  ⟨getJobResults_spec.1 _ _ rfl rfl (by decide),
    getJobResults_spec.2.1 _ rfl (Or.inl rfl),
    getJobResults_spec.2.2 _ rfl rfl rfl⟩

theorem pollJob_step_eq (polls : Nat → PollHTTPResponse) (n elapsed : Nat)
    (res : Option ComparisonResponse) (status : String)
    (he : elapsed ≤ maxPollingDurationMs)
    (hg : getJobResults (polls n) = Except.ok (res, status))
    (hs : status = "running" ∨ status = "pending") :
    pollJobResults polls n elapsed =
      pollJobResults polls (n + 1)
        (elapsed + if elapsed > pollSlowAfterMs then pollIntervalSlowMs else pollIntervalMs) := by
  conv_lhs => rw [pollJobResults.eq_def]
  rw [if_neg (by omega)]
  simp only [hg]
  rcases hs with rfl | rfl
  · simp
  · simp

theorem pollBatchJob_step_eq (polls : Nat → BatchPollHTTPResponse) (n elapsed : Nat)
    (res : Option BatchComparisonResponse) (status : String)
    (he : elapsed ≤ maxPollingDurationMs)
    (hg : getBatchJobResults (polls n) = Except.ok (res, status))
    (hs : status = "running" ∨ status = "pending") :
    pollBatchJobResults polls n elapsed =
      pollBatchJobResults polls (n + 1)
        (elapsed + if elapsed > pollSlowAfterMs then pollIntervalSlowMs else pollIntervalMs) := by
  conv_lhs => rw [pollBatchJobResults.eq_def]
  rw [if_neg (by omega)]
  simp only [hg]
  rcases hs with rfl | rfl
  · simp
  · simp

/-- C5: a still-processing poll answer never terminates the loop. An
HTTP 202 decodes to a running status (single and batch alike), and when
a poll during an active loop (deadline not yet exceeded) decodes to
status running or pending, the loop equals the same loop one poll later
with the current sleep interval added — that answer produces neither a
result nor a failure. -/
theorem poll_still_processing :
    (∀ resp : PollHTTPResponse, resp.StatusCode = 202 →
      getJobResults resp = Except.ok (none, "running")) ∧
    (∀ resp : BatchPollHTTPResponse, resp.StatusCode = 202 →
      getBatchJobResults resp = Except.ok (none, "running")) ∧
    (∀ (polls : Nat → PollHTTPResponse) (n elapsed : Nat) (res : Option ComparisonResponse)
        (status : String),
      elapsed ≤ maxPollingDurationMs →
      getJobResults (polls n) = Except.ok (res, status) →
      status = "running" ∨ status = "pending" →
      pollJobResults polls n elapsed =
        pollJobResults polls (n + 1)
          (elapsed + if elapsed > pollSlowAfterMs then pollIntervalSlowMs else pollIntervalMs)) ∧
    (∀ (polls : Nat → BatchPollHTTPResponse) (n elapsed : Nat)
        (res : Option BatchComparisonResponse) (status : String),
      elapsed ≤ maxPollingDurationMs →
      getBatchJobResults (polls n) = Except.ok (res, status) →
      status = "running" ∨ status = "pending" →
      pollBatchJobResults polls n elapsed =
        pollBatchJobResults polls (n + 1)
          (elapsed + if elapsed > pollSlowAfterMs then pollIntervalSlowMs else pollIntervalMs)) := by
  refine ⟨?_, ?_, pollJob_step_eq, pollBatchJob_step_eq⟩
  · intro resp h202
    simp [getJobResults, h202]
  · intro resp h202
    simp [getBatchJobResults, h202]

/-- Witness for the C5 theorem: a server that always answers HTTP 202,
polled at the start of the loop. -/
theorem poll_still_processing_witness :
    ((⟨202, none, none, none⟩ : PollHTTPResponse).StatusCode = 202 ∧
      getJobResults ⟨202, none, none, none⟩ = Except.ok (none, "running")) ∧
    ((⟨202, none, none⟩ : BatchPollHTTPResponse).StatusCode = 202 ∧
      getBatchJobResults ⟨202, none, none⟩ = Except.ok (none, "running")) ∧
    pollJobResults (fun _ => ⟨202, none, none, none⟩) 0 0 =
      pollJobResults (fun _ => ⟨202, none, none, none⟩) 1
        (0 + if 0 > pollSlowAfterMs then pollIntervalSlowMs else pollIntervalMs) ∧
    pollBatchJobResults (fun _ => ⟨202, none, none⟩) 0 0 =
      pollBatchJobResults (fun _ => ⟨202, none, none⟩) 1
        (0 + if 0 > pollSlowAfterMs then pollIntervalSlowMs else pollIntervalMs) :=
  ⟨⟨rfl, poll_still_processing.1 _ rfl⟩,
    ⟨rfl, poll_still_processing.2.1 _ rfl⟩,
    poll_still_processing.2.2.1 _ 0 0 none "running" (Nat.zero_le _) rfl (Or.inl rfl),
    poll_still_processing.2.2.2 _ 0 0 none "running" (Nat.zero_le _) rfl (Or.inl rfl)⟩

theorem pollJob_timeout_now (polls : Nat → PollHTTPResponse) (n elapsed : Nat)
    (h : elapsed > maxPollingDurationMs) :
    pollJobResults polls n elapsed = Except.error timeoutMessage := by
  rw [pollJobResults.eq_def, if_pos h]

theorem pollBatchJob_timeout_now (polls : Nat → BatchPollHTTPResponse) (n elapsed : Nat)
    (h : elapsed > maxPollingDurationMs) :
    pollBatchJobResults polls n elapsed = Except.error timeoutMessage := by
  rw [pollBatchJobResults.eq_def, if_pos h]

theorem pollJob_allPending (polls : Nat → PollHTTPResponse)
    (hall : ∀ k, stillProcessing (polls k) = true) :
    ∀ fuel n elapsed : Nat, maxPollingDurationMs + 1 - elapsed ≤ fuel →
      pollJobResults polls n elapsed = Except.error timeoutMessage := by
  intro fuel
  induction fuel with
  | zero =>
    intro n elapsed h
    exact pollJob_timeout_now polls n elapsed (by omega)
  | succ f ih =>
    intro n elapsed h
    by_cases he : elapsed > maxPollingDurationMs
    · exact pollJob_timeout_now polls n elapsed he
    · have hstill := hall n
      unfold stillProcessing at hstill
      cases hg : getJobResults (polls n) with
      | error e => rw [hg] at hstill; simp at hstill
      | ok pr =>
        obtain ⟨res, status⟩ := pr
        rw [hg] at hstill
        simp only [Bool.or_eq_true, beq_iff_eq] at hstill
        rw [pollJob_step_eq polls n elapsed res status (by omega) hg hstill]
        apply ih
        have h500 : pollIntervalMs = 500 := rfl
        have h1000 : pollIntervalSlowMs = 1000 := rfl
        split <;> omega

theorem pollBatchJob_allPending (polls : Nat → BatchPollHTTPResponse)
    (hall : ∀ k, stillProcessingBatch (polls k) = true) :
    ∀ fuel n elapsed : Nat, maxPollingDurationMs + 1 - elapsed ≤ fuel →
      pollBatchJobResults polls n elapsed = Except.error timeoutMessage := by
  intro fuel
  induction fuel with
  | zero =>
    intro n elapsed h
    exact pollBatchJob_timeout_now polls n elapsed (by omega)
  | succ f ih =>
    intro n elapsed h
    by_cases he : elapsed > maxPollingDurationMs
    · exact pollBatchJob_timeout_now polls n elapsed he
    · have hstill := hall n
      unfold stillProcessingBatch at hstill
      cases hg : getBatchJobResults (polls n) with
      | error e => rw [hg] at hstill; simp at hstill
      | ok pr =>
        obtain ⟨res, status⟩ := pr
        rw [hg] at hstill
        simp only [Bool.or_eq_true, beq_iff_eq] at hstill
        rw [pollBatchJob_step_eq polls n elapsed res status (by omega) hg hstill]
        apply ih
        have h500 : pollIntervalMs = 500 := rfl
        have h1000 : pollIntervalSlowMs = 1000 := rfl
        split <;> omega

/-- C6: the polling loops never loop forever. Once the accumulated
elapsed time exceeds the 60-second maximum, the loop returns the
Timeout failure immediately — for every response stream alike, so no
further poll is consulted — and against a server that never reaches a
terminal status, both loops (from any start state) end in that Timeout
failure, whose message states the deadline ("1m0s"). -/
theorem poll_timeout :
    (∀ (polls : Nat → PollHTTPResponse) (n elapsed : Nat),
      elapsed > maxPollingDurationMs →
      pollJobResults polls n elapsed = Except.error timeoutMessage) ∧
    (∀ polls : Nat → PollHTTPResponse,
      (∀ k, stillProcessing (polls k) = true) →
      ∀ n elapsed : Nat, pollJobResults polls n elapsed = Except.error timeoutMessage) ∧
    (∀ (polls : Nat → BatchPollHTTPResponse) (n elapsed : Nat),
      elapsed > maxPollingDurationMs →
      pollBatchJobResults polls n elapsed = Except.error timeoutMessage) ∧
    (∀ polls : Nat → BatchPollHTTPResponse,
      (∀ k, stillProcessingBatch (polls k) = true) →
      ∀ n elapsed : Nat, pollBatchJobResults polls n elapsed = Except.error timeoutMessage) :=
  ⟨pollJob_timeout_now,
    fun polls hall n elapsed =>
      pollJob_allPending polls hall (maxPollingDurationMs + 1 - elapsed) n elapsed le_rfl,
    pollBatchJob_timeout_now,
    fun polls hall n elapsed =>
      pollBatchJob_allPending polls hall (maxPollingDurationMs + 1 - elapsed) n elapsed le_rfl⟩

/-- Witness for the C6 theorem: past the deadline, and against a server
answering HTTP 202 forever from the start of the loop. -/
theorem poll_timeout_witness :
    (60001 > maxPollingDurationMs ∧
      pollJobResults (fun _ => ⟨202, none, none, none⟩) 0 60001 =
        Except.error timeoutMessage) ∧
    ((∀ k : Nat,
        stillProcessing ((fun _ => (⟨202, none, none, none⟩ : PollHTTPResponse)) k) = true) ∧
      pollJobResults (fun _ => ⟨202, none, none, none⟩) 0 0 = Except.error timeoutMessage) ∧
    (60001 > maxPollingDurationMs ∧
      pollBatchJobResults (fun _ => ⟨202, none, none⟩) 0 60001 =
        Except.error timeoutMessage) ∧
    ((∀ k : Nat,
        stillProcessingBatch ((fun _ => (⟨202, none, none⟩ : BatchPollHTTPResponse)) k) = true) ∧
      pollBatchJobResults (fun _ => ⟨202, none, none⟩) 0 0 = Except.error timeoutMessage) :=
  ⟨⟨by decide, poll_timeout.1 _ 0 60001 (by decide)⟩,
    ⟨fun _ => rfl, poll_timeout.2.1 (fun _ => ⟨202, none, none, none⟩) (fun _ => rfl) 0 0⟩,
    ⟨by decide, poll_timeout.2.2.1 _ 0 60001 (by decide)⟩,
    ⟨fun _ => rfl, poll_timeout.2.2.2 (fun _ => ⟨202, none, none⟩) (fun _ => rfl) 0 0⟩⟩


theorem noWrap_zero_of_ge (fuel : Nat) :
    ∀ (p1 p2 : List String) (i : Nat), p1.length ≤ i → p2.length ≤ i →
      compareSegsNoWrap p1 p2 i fuel = 0 := by
  induction fuel with
  | zero => intro p1 p2 i _ _; rfl
  | succ f ih =>
    intro p1 p2 i h1 h2
    simp only [compareSegsNoWrap, List.getD_eq_default _ _ h1, List.getD_eq_default _ _ h2]
    simp only [ne_eq, not_true_eq_false, if_neg, ite_self]
    exact ih p1 p2 (i + 1) (by omega) (by omega)

theorem noWrap_fuel_irrel (f1 : Nat) :
    ∀ (f2 : Nat) (p1 p2 : List String) (i : Nat),
      max p1.length p2.length ≤ i + f1 → max p1.length p2.length ≤ i + f2 →
      compareSegsNoWrap p1 p2 i f1 = compareSegsNoWrap p1 p2 i f2 := by
  induction f1 with
  | zero =>
    intro f2 p1 p2 i h1 h2
    have := noWrap_zero_of_ge f2 p1 p2 i (by omega) (by omega)
    simp [compareSegsNoWrap, this]
  | succ f ih =>
    intro f2 p1 p2 i h1 h2
    cases f2 with
    | zero =>
      have h0 := noWrap_zero_of_ge (f + 1) p1 p2 i (by omega) (by omega)
      rw [h0]
      rfl
    | succ f2' =>
      simp only [compareSegsNoWrap]
      by_cases hne : scanLeadingInt (p1.getD i "") ≠ scanLeadingInt (p2.getD i "")
      · rw [if_pos hne, if_pos hne]
      · rw [if_neg hne, if_neg hne]
        exact ih f2' p1 p2 (i + 1) (by omega) (by omega)

theorem noWrap_antisymm (fuel : Nat) :
    ∀ (p1 p2 : List String) (i : Nat),
      compareSegsNoWrap p2 p1 i fuel = -compareSegsNoWrap p1 p2 i fuel := by
  induction fuel with
  | zero => intro p1 p2 i; rfl
  | succ f ih =>
    intro p1 p2 i
    simp only [compareSegsNoWrap]
    by_cases hne : scanLeadingInt (p1.getD i "") ≠ scanLeadingInt (p2.getD i "")
    · rw [if_pos hne, if_pos (Ne.symm hne)]
      omega
    · rw [if_neg hne, if_neg (fun h => hne (Ne.symm h))]
      exact ih p1 p2 (i + 1)

theorem noWrap_trans (fuel : Nat) :
    ∀ (p1 p2 p3 : List String) (i : Nat),
      0 ≤ compareSegsNoWrap p1 p2 i fuel → 0 ≤ compareSegsNoWrap p2 p3 i fuel →
      0 ≤ compareSegsNoWrap p1 p3 i fuel := by
  induction fuel with
  | zero => intro p1 p2 p3 i h12 h23; exact h12
  | succ f ih =>
    intro p1 p2 p3 i h12 h23
    simp only [compareSegsNoWrap] at h12 h23 ⊢
    by_cases h1 : scanLeadingInt (p1.getD i "") ≠ scanLeadingInt (p2.getD i "")
    · rw [if_pos h1] at h12
      by_cases h2 : scanLeadingInt (p2.getD i "") ≠ scanLeadingInt (p3.getD i "")
      · rw [if_pos h2] at h23
        rw [if_pos (by omega)]
        omega
      · rw [if_neg h2] at h23
        rw [if_pos (by omega)]
        omega
    · rw [if_neg h1] at h12
      by_cases h2 : scanLeadingInt (p2.getD i "") ≠ scanLeadingInt (p3.getD i "")
      · rw [if_pos h2] at h23
        rw [if_pos (by omega)]
        omega
      · rw [if_neg h2] at h23
        rw [if_neg (by omega)]
        exact ih p1 p2 p3 (i + 1) h12 h23

theorem wrapInt64_eq_of_bounded (n : Int)
    (h1 : -9223372036854775808 ≤ n) (h2 : n ≤ 9223372036854775807) : wrapInt64 n = n := by
  have h63 : (2 : Int) ^ 63 = 9223372036854775808 := by norm_num
  have h64 : (2 : Int) ^ 64 = 18446744073709551616 := by norm_num
  unfold wrapInt64
  rw [h63, h64, Int.emod_eq_of_lt (by omega) (by omega)]
  omega

theorem compareSegs_eq_noWrap (fuel : Nat) :
    ∀ (p1 p2 : List String) (i : Nat),
      (∀ j, (scanLeadingInt (p1.getD j "")).natAbs < 2 ^ 62) →
      (∀ j, (scanLeadingInt (p2.getD j "")).natAbs < 2 ^ 62) →
      compareSegs p1 p2 i fuel = compareSegsNoWrap p1 p2 i fuel := by
  induction fuel with
  | zero => intro p1 p2 i _ _; rfl
  | succ f ih =>
    intro p1 p2 i hb1 hb2
    have b1 := hb1 i
    have b2 := hb2 i
    have e62 : (2 : Nat) ^ 62 = 4611686018427387904 := by norm_num
    rw [e62] at b1 b2
    simp only [compareSegs, compareSegsNoWrap]
    by_cases hne : scanLeadingInt (p1.getD i "") ≠ scanLeadingInt (p2.getD i "")
    · rw [if_pos hne, if_pos hne, wrapInt64_eq_of_bounded _ (by omega) (by omega)]
    · rw [if_neg hne, if_neg hne]
      exact ih p1 p2 (i + 1) hb1 hb2

theorem versionBounded_all (v : String) (h : versionBounded v) :
    ∀ i, (scanLeadingInt ((splitOnDot v).getD i "")).natAbs < 2 ^ 62 := by
  intro i
  by_cases hi : i < (splitOnDot v).length
  · exact h i hi
  · rw [List.getD_eq_default _ _ (by omega)]
    decide

theorem compareVersions_total_bdd (a b : String)
    (ha : versionBounded a) (hb : versionBounded b) :
    0 ≤ compareVersions a b ∨ 0 ≤ compareVersions b a := by
  have ha' := versionBounded_all a ha
  have hb' := versionBounded_all b hb
  simp only [compareVersions]
  rw [compareSegs_eq_noWrap _ _ _ _ ha' hb', compareSegs_eq_noWrap _ _ _ _ hb' ha']
  rw [Nat.max_comm (splitOnDot b).length (splitOnDot a).length,
    noWrap_antisymm (max (splitOnDot a).length (splitOnDot b).length) (splitOnDot a)
      (splitOnDot b) 0]
  omega

theorem compareVersions_trans_bdd (a b c : String)
    (ha : versionBounded a) (hb : versionBounded b) (hc : versionBounded c)
    (hab : 0 ≤ compareVersions a b) (hbc : 0 ≤ compareVersions b c) :
    0 ≤ compareVersions a c := by
  have ha' := versionBounded_all a ha
  have hb' := versionBounded_all b hb
  have hc' := versionBounded_all c hc
  simp only [compareVersions] at hab hbc ⊢
  rw [compareSegs_eq_noWrap _ _ _ _ ha' hb'] at hab
  rw [compareSegs_eq_noWrap _ _ _ _ hb' hc'] at hbc
  rw [compareSegs_eq_noWrap _ _ _ _ ha' hc']
  set la := (splitOnDot a).length with hla
  set lb := (splitOnDot b).length with hlb
  set lc := (splitOnDot c).length with hlc
  set F := max la (max lb lc) with hF
  have h1 : max la lb ≤ F :=
    max_le (le_max_left _ _) (le_trans (le_max_left _ _) (le_max_right _ _))
  have h2 : max lb lc ≤ F := le_max_right _ _
  have h3 : max la lc ≤ F :=
    max_le (le_max_left _ _) (le_trans (le_max_right _ _) (le_max_right _ _))
  rw [noWrap_fuel_irrel (max la lb) F _ _ 0 (by omega) (by omega)] at hab
  rw [noWrap_fuel_irrel (max lb lc) F _ _ 0 (by omega) (by omega)] at hbc
  rw [noWrap_fuel_irrel (max la lc) F _ _ 0 (by omega) (by omega)]
  exact noWrap_trans F _ _ _ 0 hab hbc

theorem sorted_orderedInsert_of (a : String) (ha : versionBounded a) :
    ∀ l : List String, (∀ x ∈ l, versionBounded x) → l.Sorted versionGE →
      (l.orderedInsert versionGE a).Sorted versionGE := by
  intro l
  induction l with
  | nil =>
    intro _ _
    simp [List.orderedInsert]
  | cons b t ih =>
    intro hP hs
    rw [List.sorted_cons] at hs
    obtain ⟨hbt, hst⟩ := hs
    simp only [List.orderedInsert]
    by_cases hab : versionGE a b
    · rw [if_pos hab, List.sorted_cons]
      constructor
      · intro x hx
        rcases List.mem_cons.mp hx with rfl | hx'
        · exact hab
        · exact compareVersions_trans_bdd a b x ha (hP b (by simp)) (hP x (by simp [hx']))
            hab (hbt x hx')
      · exact List.sorted_cons.mpr ⟨hbt, hst⟩
    · rw [if_neg hab, List.sorted_cons]
      refine ⟨?_, ih (fun x hx => hP x (by simp [hx])) hst⟩
      intro x hx
      rcases (List.mem_orderedInsert versionGE).mp hx with hxa | hx'
      · rw [hxa]
        rcases compareVersions_total_bdd a b ha (hP b (by simp)) with h | h
        · exact absurd h hab
        · exact h
      · exact hbt x hx'

theorem sorted_insertionSort_of :
    ∀ l : List String, (∀ x ∈ l, versionBounded x) →
      (l.insertionSort versionGE).Sorted versionGE := by
  intro l
  induction l with
  | nil => intro _; simp
  | cons b t ih =>
    intro hP
    simp only [List.insertionSort]
    apply sorted_orderedInsert_of b (hP b (by simp))
    · intro x hx
      exact hP x (List.mem_cons_of_mem _ ((List.perm_insertionSort versionGE t).subset hx))
    · exact ih fun x hx => hP x (by simp [hx])

/-- C7 fails as stated on mixed segments and at the int64 extremes:
"2a" is not an integer, but the code values it by its leading digits
(the fmt scanner reads 2), not by zero, so "3.2a" sorts strictly above
"3.1" although under the claimed comparison (non-numeric segment
treated as zero) descending order would have to put "3.1" first; and
for segments at the int64 extremes the Go `int` difference wraps, so
the claimed plain integer comparison also reverses there (the maximal
int64 compares below the minimal one). -/
theorem getSortedVersions_cex :
    scanLeadingInt "2a" = 2 ∧
    getSortedVersions ["3.2a", "3.1"] = ["3.2a", "3.1"] ∧
    getSortedVersions ["3.2a", "3.1"] ≠ ["3.1", "3.2a"] ∧
    compareVersions "9223372036854775807" "-9223372036854775808" = -1 :=
  ⟨by decide, by decide, by decide, by decide⟩

/-- C7 (amended): provided every segment of every listed version scans
to an integer of magnitude below 2^62 — so no int64 subtraction in the
comparator can wrap, which holds for all real OS version strings —
`getSortedVersions` returns a permutation of its versions in descending
order under dotted version comparison: split on dots, compare
positionally as integers where each segment counts as the leading
decimal integer the fmt scanner reads from it (0 when it reads none,
missing segments count 0), first unequal segment decides. On
["3.20.0.92","3.22.4.2","3.21.0.79"] it yields
["3.22.4.2","3.21.0.79","3.20.0.92"]. -/
theorem getSortedVersions_spec :
    (∀ versions : List String, (∀ v ∈ versions, versionBounded v) →
      (getSortedVersions versions).Perm versions ∧
        List.Sorted versionGE (getSortedVersions versions)) ∧
    getSortedVersions ["3.20.0.92", "3.22.4.2", "3.21.0.79"] =
      ["3.22.4.2", "3.21.0.79", "3.20.0.92"] := by
  refine ⟨?_, by decide⟩
  intro versions hv
  exact ⟨List.perm_insertionSort versionGE versions, sorted_insertionSort_of versions hv⟩

/-- Witness for the amended C7 theorem at the concrete version list. -/
theorem getSortedVersions_spec_witness :
    (∀ v ∈ (["3.20.0.92", "3.22.4.2", "3.21.0.79"] : List String), versionBounded v) ∧
    ((getSortedVersions ["3.20.0.92", "3.22.4.2", "3.21.0.79"]).Perm
        ["3.20.0.92", "3.22.4.2", "3.21.0.79"] ∧
      List.Sorted versionGE (getSortedVersions ["3.20.0.92", "3.22.4.2", "3.21.0.79"])) :=
  ⟨by decide, getSortedVersions_spec.1 _ (by decide)⟩
